import Mathlib

/-!
# aliceVision::hdr::RobertsonCalibrate

A shallow embedding of `src/aliceVision/hdr/RobertsonCalibrate.hpp` and the properties of its
configuration interface.

* C++ `int` is a 32-bit two's complement integer and `std::size_t` a 64-bit unsigned integer
  (LP64).  Values of both are carried as `Int` / `Nat`; every conversion is written out with
  its `% 2 ^ w`.
* C++ `float` and `double` are the IEEE 754 binary32 and binary64 interchange formats, carried
  as their three bit fields.
* A member function is a function of the receiver.  A `const` member function returns its
  result together with the receiver it leaves behind; a `void` mutator returns the new
  receiver.
* `image::Image<image::RGBfColor>` is declared outside this header; it is a type parameter.
-/

namespace aliceVision.hdr

/-! ## Machine integers -/

/-- Smallest value of a C++ `int`. -/
def INT_MIN : Int := -(2 ^ 31)

/-- Largest value of a C++ `int`. -/
def INT_MAX : Int := 2 ^ 31 - 1

/-- Number of values of a `std::size_t`. -/
def SIZE_MODULUS : Nat := 2 ^ 64

/-- The integer `v` is a value of the C++ type `int`. -/
def IsInt (v : Int) : Prop := INT_MIN ≤ v ∧ v ≤ INT_MAX

instance (v : Int) : Decidable (IsInt v) := by
  unfold IsInt; exact inferInstance

/-- The natural number `n` is a value of the C++ type `std::size_t`. -/
def IsSizeT (n : Nat) : Prop := n < SIZE_MODULUS

instance (n : Nat) : Decidable (IsSizeT n) := by
  unfold IsSizeT; exact inferInstance

/-- Integral conversion `int → std::size_t`: the value modulo `2 ^ 64`. -/
def intToSizeT (v : Int) : Nat := (v % 2 ^ 64).toNat

/-- Integral conversion `std::size_t → int`: the low 32 bits read as two's complement. -/
def sizeTToInt (n : Nat) : Int :=
  if n % 2 ^ 32 < 2 ^ 31 then ((n % 2 ^ 32 : Nat) : Int) else ((n % 2 ^ 32 : Nat) : Int) - 2 ^ 32

/-! ## IEEE 754 binary interchange formats -/

/-- A datum of the binary interchange format with `w` exponent bits and `t` fraction bits:
sign bit, biased exponent field and trailing significand field. -/
structure Binary (w t : Nat) where
  sign : Bool
  expo : Nat
  frac : Nat
  expo_lt : expo < 2 ^ w
  frac_lt : frac < 2 ^ t
deriving DecidableEq

/-- C++ `float`: binary32. -/
abbrev CFloat := Binary 8 23

/-- C++ `double`: binary64. -/
abbrev CDouble := Binary 11 52

/-- What a floating-point datum denotes: a signed rational magnitude (the sign is kept apart, so
that `-0` and `+0` differ), a signed infinity, or not-a-number (all NaN payloads denote the
same `nan`). -/
inductive FpValue where
  | finite (neg : Bool) (mag : ℚ)
  | infinite (neg : Bool)
  | nan
deriving DecidableEq

/-- Exponent bias of a format with `w` exponent bits. -/
def Binary.bias (w : Nat) : Int := 2 ^ (w - 1) - 1

/-- Value denoted by a datum: all-ones exponent is infinity or NaN, zero exponent is zero or a
subnormal number, anything else a normal number with its hidden leading bit. -/
def Binary.toValue {w t : Nat} (x : Binary w t) : FpValue :=
  if x.expo = 2 ^ w - 1 then
    if x.frac = 0 then FpValue.infinite x.sign else FpValue.nan
  else if x.expo = 0 then
    FpValue.finite x.sign ((x.frac : ℚ) * (2 : ℚ) ^ ((1 : Int) - Binary.bias w - (t : Int)))
  else
    FpValue.finite x.sign
      (((2 ^ t + x.frac : Nat) : ℚ) * (2 : ℚ) ^ ((x.expo : Int) - Binary.bias w - (t : Int)))

/-- The rational number a finite value stands for. -/
def FpValue.toRat : FpValue → Option ℚ
  | FpValue.finite neg mag => some (if neg then -mag else mag)
  | FpValue.infinite _ => none
  | FpValue.nan => none

/-- Magnitude of a finite datum counted in units of the smallest subnormal number
`2 ^ (1 - bias - t)`. -/
def Binary.scaled {w t : Nat} (x : Binary w t) : Nat :=
  if x.expo = 0 then x.frac else (2 ^ t + x.frac) * 2 ^ (x.expo - 1)

/-- The datum is a NaN. -/
def Binary.isNaN {w t : Nat} (x : Binary w t) : Bool :=
  decide (x.expo = 2 ^ w - 1) && decide (x.frac ≠ 0)

/-- The datum is `+0` or `-0`. -/
def Binary.isZero {w t : Nat} (x : Binary w t) : Bool :=
  decide (x.expo = 0) && decide (x.frac = 0)

/-- Order of magnitudes of two non-NaN data: lexicographic on exponent and fraction fields. -/
def Binary.magLt {w t : Nat} (a b : Binary w t) : Bool :=
  decide (a.expo < b.expo) || (decide (a.expo = b.expo) && decide (a.frac < b.frac))

/-- The comparison `a < b` of the format: false as soon as one operand is NaN, zeros of either
sign compare equal. -/
def Binary.lt {w t : Nat} (a b : Binary w t) : Bool :=
  if a.isNaN || b.isNaN then false
  else if a.isZero && b.isZero then false
  else
    match a.sign, b.sign with
    | false, false => a.magLt b
    | true, true => b.magLt a
    | true, false => true
    | false, true => false

/-- The comparison `a > b` of the format. -/
def Binary.gt {w t : Nat} (a b : Binary w t) : Bool := b.lt a

/-- The comparison `a == b` of the format: false as soon as one operand is NaN, zeros of either
sign compare equal, every other datum is equal to itself only. -/
def Binary.eq {w t : Nat} (a b : Binary w t) : Bool :=
  if a.isNaN || b.isNaN then false
  else if a.isZero && b.isZero then true
  else decide (a.sign = b.sign) && decide (a.expo = b.expo) && decide (a.frac = b.frac)

/-- The datum is a signalling NaN: a NaN whose quiet bit, the top bit of the fraction, is
clear. -/
def Binary.isSignaling {w t : Nat} (x : Binary w t) : Bool :=
  x.isNaN && decide (x.frac < 2 ^ (t - 1))

/-- Floating-point promotion `float → double`.  An infinity stays an infinity; a NaN stays a NaN
with its sign, its 22 payload bits moved to the top of the fraction below the quiet bit, and the
quiet bit set (a signalling NaN is quieted by the conversion); zeros stay zeros; a normal number
is re-biased and its fraction padded with 29 zero bits; and a subnormal binary32 number (which is
normal in binary64) is normalised at its leading bit. -/
def floatToDouble (x : CFloat) : CDouble :=
  if x.expo = 255 then
    if x.frac = 0 then
      { sign := x.sign, expo := 2047, frac := 0, expo_lt := by decide, frac_lt := by decide }
    else
      { sign := x.sign, expo := 2047, frac := 2 ^ 51 + x.frac % 2 ^ 22 * 2 ^ 29
        expo_lt := by decide
        frac_lt := by omega }
  else if h0 : x.expo = 0 then
    if hf : x.frac = 0 then
      { sign := x.sign, expo := 0, frac := 0, expo_lt := by decide, frac_lt := by decide }
    else
      { sign := x.sign
        expo := Nat.log2 x.frac + 874
        frac := (x.frac - 2 ^ Nat.log2 x.frac) * 2 ^ (52 - Nat.log2 x.frac)
        expo_lt := by
          have h := (Nat.log2_lt hf).2 x.frac_lt
          omega
        frac_lt := by
          have hk : Nat.log2 x.frac < 23 := (Nat.log2_lt hf).2 x.frac_lt
          have hlo : 2 ^ Nat.log2 x.frac ≤ x.frac := Nat.log2_self_le hf
          have hhi : x.frac < 2 ^ (Nat.log2 x.frac + 1) := Nat.lt_log2_self
          have hsplit : (2 : Nat) ^ 52 = 2 ^ Nat.log2 x.frac * 2 ^ (52 - Nat.log2 x.frac) := by
            rw [← Nat.pow_add]; congr 1; omega
          rw [hsplit]
          apply Nat.mul_lt_mul_of_pos_right
          · rw [Nat.pow_succ] at hhi; omega
          · exact Nat.pos_pow_of_pos _ (by decide) }
  else
    { sign := x.sign, expo := x.expo + 896, frac := x.frac * 2 ^ 29
      expo_lt := by have h := x.expo_lt; omega
      frac_lt := by have h := x.frac_lt; omega }

/-- The literal `0.01f`: the binary32 datum nearest to 1/100, bit pattern `0x3C23D70A`. -/
def literal_0_01f : CFloat :=
  { sign := false, expo := 120, frac := 2348810, expo_lt := by decide, frac_lt := by decide }

/-- The literal `0.01`: the binary64 datum nearest to 1/100, bit pattern
`0x3F847AE147AE147B`. -/
def literal_0_01 : CDouble :=
  { sign := false, expo := 1016, frac := 1261007895663739
    expo_lt := by decide, frac_lt := by decide }

/-! ## The class -/

/-- Private state of `class RobertsonCalibrate`. -/
structure RobertsonCalibrate (Image : Type) where
  /-- Vector containing the HDR images for each group. -/
  _radiance : List Image
  /-- If the difference between responses is below the threshold we stop the iteration. -/
  _threshold : CDouble
  /-- Maximum number of iteration before stopping the program (a `std::size_t`). -/
  _maxIteration : Nat

/-- Outcome of a failed `assert`. -/
inductive Fault where
  | assertionFailed
deriving DecidableEq

namespace RobertsonCalibrate

variable {Image : Type}

/-- Default constructor `RobertsonCalibrate() = default;`: every member takes its default member initialiser,
`_radiance` is an empty vector, `_threshold{0.01f}`, `_maxIteration{500}`. -/
def defaultCtor : RobertsonCalibrate Image :=
  { _radiance := [], _threshold := floatToDouble literal_0_01f, _maxIteration := 500 }

/-- Constructor `RobertsonCalibrate(std::size_t maxIter, double threshold)` with its member
initialiser list `_maxIteration(maxIter), _threshold(threshold)`; `_radiance` is left empty. -/
def ctor (maxIter : Nat) (threshold : CDouble) : RobertsonCalibrate Image :=
  { _radiance := [], _threshold := threshold, _maxIteration := maxIter }

/-- Getter `int getMaxIteration() const { return _maxIteration; }`: the `std::size_t` member is
converted to the `int` return type. -/
def getMaxIteration (self : RobertsonCalibrate Image) : Int × RobertsonCalibrate Image :=
  (sizeTToInt self._maxIteration, self)

/-- Getter `double getThreshold() const { return _threshold; }`. -/
def getThreshold (self : RobertsonCalibrate Image) : CDouble × RobertsonCalibrate Image :=
  (self._threshold, self)

/-- Setter `void setMaxIteration(int value) { _maxIteration = value; }`: the `int` argument is
converted to the `std::size_t` member. -/
def setMaxIteration (self : RobertsonCalibrate Image) (value : Int) : RobertsonCalibrate Image :=
  { self with _maxIteration := intToSizeT value }

/-- Setter `void setThreshold(float value) { _threshold = value; }`: the `float` argument is
promoted to the `double` member. -/
def setThreshold (self : RobertsonCalibrate Image) (value : CFloat) : RobertsonCalibrate Image :=
  { self with _threshold := floatToDouble value }

/-- Accessor `getRadiance(std::size_t group) const`: `assert(group < _radiance.size())`, then
`return _radiance[group]`. -/
def getRadiance (self : RobertsonCalibrate Image) (group : Nat) :
    Except Fault (Image × RobertsonCalibrate Image) :=
  if h : group < self._radiance.length then
    Except.ok (self._radiance.get ⟨group, h⟩, self)
  else
    Except.error Fault.assertionFailed

end RobertsonCalibrate

/-- A call of one of the two configuration setters. -/
inductive SetterCall where
  | setMaxIteration (value : Int)
  | setThreshold (value : CFloat)

/-- The argument of the call is a value of the parameter's C++ type. -/
def SetterCall.WellTyped : SetterCall → Prop
  | SetterCall.setMaxIteration value => IsInt value
  | SetterCall.setThreshold _ => True

/-- The call hands a non-negative cap to `setMaxIteration` (any `setThreshold` call passes). -/
def SetterCall.NonNegative : SetterCall → Prop
  | SetterCall.setMaxIteration value => 0 ≤ value
  | SetterCall.setThreshold _ => True

instance (c : SetterCall) : Decidable c.WellTyped := by
  cases c <;> unfold SetterCall.WellTyped <;> exact inferInstance

instance (c : SetterCall) : Decidable c.NonNegative := by
  cases c <;> unfold SetterCall.NonNegative <;> exact inferInstance

/-- Effect of one setter call. -/
def SetterCall.apply {Image : Type} (self : RobertsonCalibrate Image) :
    SetterCall → RobertsonCalibrate Image
  | SetterCall.setMaxIteration value => self.setMaxIteration value
  | SetterCall.setThreshold value => self.setThreshold value

/-- Effect of a sequence of setter calls, first call first. -/
def runCalls {Image : Type} (self : RobertsonCalibrate Image) (calls : List SetterCall) :
    RobertsonCalibrate Image :=
  calls.foldl SetterCall.apply self

/-- The state is the result of one of the two constructors, the two-argument one called with a
`std::size_t` iteration cap. -/
def Constructed {Image : Type} (self : RobertsonCalibrate Image) : Prop :=
  self = RobertsonCalibrate.defaultCtor ∨
    ∃ (maxIter : Nat) (threshold : CDouble),
      IsSizeT maxIter ∧ self = RobertsonCalibrate.ctor maxIter threshold

/-! ## The iteration loop of `process`

The header declares `process` and does not define it.  Its loop is modelled from the
specification of the calibrator (§4.3 ConvergenceMonitor, §4.4 Calibrator). -/

/-- Modelled from the spec: the estimation passes run by `process`, whose body is not part of the
header.  `initial` is the response curve the calibrator starts from (constant 1.0), `update` is
one full pass (§4.1 radiance estimation for every group, then §4.2 response estimation with its
normalisation) and `delta` is the monitor's measure of change between the previous and the new
curve (§4.3).  The call's arguments (image groups, quantization, exposure times, sample count,
fisheye flag, weight curve) fix these three. -/
structure Passes (Curve : Type) where
  initial : Curve
  update : Curve → Curve
  delta : Curve → Curve → CDouble

/-- Modelled from the spec: the verdict of the ConvergenceMonitor (§4.3), missing from the
header. -/
inductive Verdict where
  | continueLoop
  | stop
deriving DecidableEq

/-- Modelled from the spec: the IterationState of §3, missing from the header: current response
curve, iteration count, delta of the last iteration (none before the first pass). -/
structure IterationState (Curve : Type) where
  response : Curve
  iteration : Nat
  delta : Option CDouble

/-- Modelled from the spec: the ConvergenceMonitor of §4.3, missing from the header: "Returns
continue if delta > threshold and the iteration count is below maxIteration, else stop." -/
def monitor (threshold : CDouble) (maxIteration : Nat) (delta : CDouble) (iteration : Nat) :
    Verdict :=
  if delta.gt threshold = true ∧ iteration < maxIteration then Verdict.continueLoop
  else Verdict.stop

/-- Modelled from the spec: one `Iterating` step of §4.4 up to the monitor, missing from the
header: a full pass, the delta between the previous and the new curve, and the iteration count
incremented "once per full pass regardless of outcome". -/
def iteratingStep {Curve : Type} (p : Passes Curve) (st : IterationState Curve) :
    IterationState Curve :=
  { response := p.update st.response
    iteration := st.iteration + 1
    delta := some (p.delta st.response (p.update st.response)) }

/-- Modelled from the spec: the loop of the state machine of §4.4, missing from the header: run a
step, ask the monitor, "loop back to Iterating on continue", else end in a terminal state.
The recursion is bounded by `fuel`; `none` means the fuel ran out before the loop stopped. -/
def runLoop {Curve : Type} (p : Passes Curve) (threshold : CDouble) (maxIteration : Nat) :
    Nat → IterationState Curve → Option (IterationState Curve)
  | 0, _ => none
  | fuel + 1, st =>
    match monitor threshold maxIteration (p.delta st.response (p.update st.response))
        (st.iteration + 1) with
    | Verdict.continueLoop => runLoop p threshold maxIteration fuel (iteratingStep p st)
    | Verdict.stop => some (iteratingStep p st)

/-- Modelled from the spec: the iteration loop of `process` (declared in the header, defined
elsewhere), entered from the initial curve with iteration count 0 and run with the receiver's
`_threshold` and `_maxIteration`. -/
def RobertsonCalibrate.process {Image Curve : Type} (self : RobertsonCalibrate Image)
    (p : Passes Curve) (fuel : Nat) : Option (IterationState Curve) :=
  runLoop p self._threshold self._maxIteration fuel
    { response := p.initial, iteration := 0, delta := none }

/-- Response curve after `k` full passes. -/
def responseAfter {Curve : Type} (p : Passes Curve) (k : Nat) : Curve :=
  Nat.iterate p.update k p.initial

/-- Delta the monitor sees at the end of pass `k` (passes are counted from 1). -/
def deltaOfPass {Curve : Type} (p : Passes Curve) (k : Nat) : CDouble :=
  p.delta (responseAfter p (k - 1)) (responseAfter p k)

/-! ## Concrete inputs -/

/-- The binary64 datum 1.0. -/
def double_one : CDouble :=
  { sign := false, expo := 1023, frac := 0, expo_lt := by decide, frac_lt := by decide }

/-- The binary32 datum 0.5. -/
def float_half : CFloat :=
  { sign := false, expo := 126, frac := 0, expo_lt := by decide, frac_lt := by decide }

/-- The binary32 signalling NaN with bit pattern `0x7F800001`. -/
def float_signaling_nan : CFloat :=
  { sign := false, expo := 255, frac := 1, expo_lt := by decide, frac_lt := by decide }

/-- The binary32 quiet NaN with bit pattern `0x7FC00000`. -/
def float_quiet_nan : CFloat :=
  { sign := false, expo := 255, frac := 4194304, expo_lt := by decide, frac_lt := by decide }

/-- A calibrator holding two radiance maps (images stood for by numbers). -/
def calibratorWithTwoMaps : RobertsonCalibrate Nat :=
  { _radiance := [7, 8], _threshold := double_one, _maxIteration := 500 }

/-- Passes over curves stood for by numbers: every pass moves the curve and reports delta 1.0. -/
def steadyPasses : Passes Nat :=
  { initial := 0, update := fun c => c + 1, delta := fun _ _ => double_one }

/-! ## Conversions between `int` and `std::size_t` -/

/-- The conversion `int → std::size_t` always lands in the range of `std::size_t`. -/
theorem intToSizeT_isSizeT (v : Int) : IsSizeT (intToSizeT v) := by
  unfold IsSizeT SIZE_MODULUS intToSizeT
  omega

/-- A non-negative `int` keeps its value when converted to `std::size_t`. -/
theorem intToSizeT_of_nonneg (v : Int) (h0 : 0 ≤ v) (h1 : v ≤ INT_MAX) :
    ((intToSizeT v : Nat) : Int) = v := by
  unfold INT_MAX at h1
  unfold intToSizeT
  omega

/-- A negative `int` `v` becomes `2 ^ 64 + v` when converted to `std::size_t`. -/
theorem intToSizeT_of_neg (v : Int) (h0 : INT_MIN ≤ v) (h1 : v < 0) :
    ((intToSizeT v : Nat) : Int) = 2 ^ 64 + v := by
  unfold INT_MIN at h0
  unfold intToSizeT
  omega

/-- The conversion `std::size_t → int` always lands in the range of `int`. -/
theorem sizeTToInt_isInt (n : Nat) : IsInt (sizeTToInt n) := by
  unfold IsInt INT_MIN INT_MAX sizeTToInt
  split <;> omega

/-- Round trip `int → std::size_t → int` is the identity on `int` values. -/
theorem sizeTToInt_intToSizeT (v : Int) (hv : IsInt v) : sizeTToInt (intToSizeT v) = v := by
  unfold IsInt INT_MIN INT_MAX at hv
  unfold sizeTToInt intToSizeT
  split <;> omega

/-- The `int` read from a `std::size_t` is non-negative exactly when bit 31 is clear. -/
theorem sizeTToInt_nonneg_iff (n : Nat) : 0 ≤ sizeTToInt n ↔ n % 2 ^ 32 < 2 ^ 31 := by
  unfold sizeTToInt
  split <;> omega

/-- The `int` read from a `std::size_t` is the same number exactly below `2 ^ 31`. -/
theorem sizeTToInt_eq_self_iff (n : Nat) : sizeTToInt n = (n : Int) ↔ n < 2 ^ 31 := by
  unfold sizeTToInt
  split <;> omega

/-! ## Promotion `float → double` -/

/-- The exponent bias of binary32 is 127. -/
theorem bias_float : Binary.bias 8 = 127 := by
  unfold Binary.bias; norm_num

/-- The exponent bias of binary64 is 1023. -/
theorem bias_double : Binary.bias 11 = 1023 := by
  unfold Binary.bias; norm_num

/-- Powers of two with integer exponents multiply by adding exponents. -/
theorem two_zpow_split (a b : Int) : (2 : ℚ) ^ (a + b) = (2 : ℚ) ^ a * (2 : ℚ) ^ b :=
  zpow_add₀ (by norm_num) a b

/-- Promotion keeps the sign bit. -/
theorem floatToDouble_sign (x : CFloat) : (floatToDouble x).sign = x.sign := by
  unfold floatToDouble
  split_ifs <;> rfl

/-- Fields of the promotion of an infinity. -/
theorem floatToDouble_infinity (x : CFloat) (h : x.expo = 255) (hf : x.frac = 0) :
    (floatToDouble x).expo = 2047 ∧ (floatToDouble x).frac = 0 := by
  unfold floatToDouble
  rw [if_pos h, if_pos hf]
  exact ⟨rfl, rfl⟩

/-- Fields of the promotion of a NaN: the payload is kept and the quiet bit set. -/
theorem floatToDouble_nan (x : CFloat) (h : x.expo = 255) (hf : x.frac ≠ 0) :
    (floatToDouble x).expo = 2047 ∧
    (floatToDouble x).frac = 2 ^ 51 + x.frac % 2 ^ 22 * 2 ^ 29 := by
  unfold floatToDouble
  rw [if_pos h, if_neg hf]
  exact ⟨rfl, rfl⟩

/-- Fields of the promotion of a zero. -/
theorem floatToDouble_zero (x : CFloat) (h0 : x.expo = 0) (hf : x.frac = 0) :
    (floatToDouble x).expo = 0 ∧ (floatToDouble x).frac = 0 := by
  have h255 : ¬ x.expo = 255 := by omega
  unfold floatToDouble
  rw [if_neg h255, dif_pos h0, dif_pos hf]
  exact ⟨rfl, rfl⟩

/-- Fields of the promotion of a subnormal binary32 number. -/
theorem floatToDouble_subnormal (x : CFloat) (h0 : x.expo = 0) (hf : x.frac ≠ 0) :
    (floatToDouble x).expo = Nat.log2 x.frac + 874 ∧
    (floatToDouble x).frac = (x.frac - 2 ^ Nat.log2 x.frac) * 2 ^ (52 - Nat.log2 x.frac) := by
  have h255 : ¬ x.expo = 255 := by omega
  unfold floatToDouble
  rw [if_neg h255, dif_pos h0, dif_neg hf]
  exact ⟨rfl, rfl⟩

/-- Fields of the promotion of a normal binary32 number. -/
theorem floatToDouble_normal (x : CFloat) (h255 : x.expo ≠ 255) (h0 : x.expo ≠ 0) :
    (floatToDouble x).expo = x.expo + 896 ∧ (floatToDouble x).frac = x.frac * 2 ^ 29 := by
  unfold floatToDouble
  rw [if_neg h255, dif_neg h0]
  exact ⟨rfl, rfl⟩

/-- Promotion `float → double` is exact: the `double` denotes the value of the `float`. -/
theorem floatToDouble_toValue (x : CFloat) : (floatToDouble x).toValue = x.toValue := by
  have hexpo := x.expo_lt
  have hfrac := x.frac_lt
  have hs := floatToDouble_sign x
  unfold Binary.toValue
  rw [bias_float, bias_double, hs]
  by_cases h255 : x.expo = 255
  · by_cases hf : x.frac = 0
    · obtain ⟨he, hm⟩ := floatToDouble_infinity x h255 hf
      rw [he, hm, h255]
      simp [hf]
    · obtain ⟨he, hm⟩ := floatToDouble_nan x h255 hf
      rw [he, hm, h255]
      simp [hf]
  · by_cases h0 : x.expo = 0
    · by_cases hf : x.frac = 0
      · obtain ⟨he, hm⟩ := floatToDouble_zero x h0 hf
        rw [he, hm, h0, hf]
        simp
      · obtain ⟨he, hm⟩ := floatToDouble_subnormal x h0 hf
        have hk : Nat.log2 x.frac < 23 := (Nat.log2_lt hf).2 hfrac
        have hlo : 2 ^ Nat.log2 x.frac ≤ x.frac := Nat.log2_self_le hf
        have hsplit : (2 : Nat) ^ 52 = 2 ^ Nat.log2 x.frac * 2 ^ (52 - Nat.log2 x.frac) := by
          rw [← Nat.pow_add]; congr 1; omega
        have hsum : 2 ^ 52 + (x.frac - 2 ^ Nat.log2 x.frac) * 2 ^ (52 - Nat.log2 x.frac)
            = x.frac * 2 ^ (52 - Nat.log2 x.frac) := by
          rw [hsplit, ← Nat.add_mul]
          congr 1
          omega
        rw [he, hm, hsum, h0]
        rw [if_neg (by omega), if_neg (by omega), if_neg (by decide), if_pos rfl]
        congr 1
        have hexp : (((Nat.log2 x.frac + 874 : Nat) : Int) - 1023 - ((52 : Nat) : Int))
            = -((52 - Nat.log2 x.frac : Nat) : Int) + ((1 : Int) - 127 - ((23 : Nat) : Int)) := by
          push_cast
          omega
        rw [hexp, two_zpow_split, zpow_neg, zpow_natCast]
        push_cast
        have hpos : (2 : ℚ) ^ (52 - Nat.log2 x.frac) ≠ 0 := pow_ne_zero _ (by norm_num)
        field_simp
        ring
    · obtain ⟨he, hm⟩ := floatToDouble_normal x h255 h0
      have hsum : 2 ^ 52 + x.frac * 2 ^ 29 = (2 ^ 23 + x.frac) * 2 ^ 29 := by omega
      rw [he, hm, hsum]
      rw [if_neg (by omega), if_neg (by omega), if_neg (by omega), if_neg h0]
      congr 1
      have hexp : (((x.expo + 896 : Nat) : Int) - 1023 - ((52 : Nat) : Int))
          = (-29 : Int) + ((x.expo : Int) - 127 - ((23 : Nat) : Int)) := by
        push_cast; ring
      rw [hexp, two_zpow_split]
      push_cast
      have h29 : (2 : ℚ) ^ (-29 : Int) = 1 / 2 ^ 29 := by
        rw [zpow_neg]; norm_num
      rw [h29]
      ring

/-- Promotion keeps NaN-ness: the `double` is a NaN exactly when the `float` is. -/
theorem floatToDouble_isNaN (x : CFloat) : (floatToDouble x).isNaN = x.isNaN := by
  have hexpo := x.expo_lt
  have hfrac := x.frac_lt
  unfold Binary.isNaN
  by_cases h255 : x.expo = 255
  · by_cases hf : x.frac = 0
    · obtain ⟨he, hm⟩ := floatToDouble_infinity x h255 hf
      rw [he, hm, h255, hf]
      rfl
    · obtain ⟨he, hm⟩ := floatToDouble_nan x h255 hf
      have hne : 2 ^ 51 + x.frac % 2 ^ 22 * 2 ^ 29 ≠ 0 := by omega
      rw [he, hm, h255]
      simp [hf, hne]
  · have hx : decide (x.expo = 2 ^ 8 - 1) = false := decide_eq_false (by omega)
    have hd : decide ((floatToDouble x).expo = 2 ^ 11 - 1) = false := by
      apply decide_eq_false
      by_cases h0 : x.expo = 0
      · by_cases hf : x.frac = 0
        · rw [(floatToDouble_zero x h0 hf).1]
          decide
        · have hk : Nat.log2 x.frac < 23 := (Nat.log2_lt hf).2 hfrac
          rw [(floatToDouble_subnormal x h0 hf).1]
          omega
      · rw [(floatToDouble_normal x h255 h0).1]
        omega
    rw [hx, hd, Bool.false_and, Bool.false_and]

/-- The promotion of a NaN is never signalling: its quiet bit is set. -/
theorem floatToDouble_not_signaling (x : CFloat) : (floatToDouble x).isSignaling = false := by
  unfold Binary.isSignaling
  by_cases hn : x.isNaN = true
  · have h255 : x.expo = 255 := by
      unfold Binary.isNaN at hn
      simp only [Bool.and_eq_true, decide_eq_true_eq] at hn
      exact hn.1
    have hf : x.frac ≠ 0 := by
      unfold Binary.isNaN at hn
      simp only [Bool.and_eq_true, decide_eq_true_eq] at hn
      exact hn.2
    have hm := (floatToDouble_nan x h255 hf).2
    have hge : decide ((floatToDouble x).frac < 2 ^ (52 - 1)) = false := by
      apply decide_eq_false
      rw [hm]
      omega
    rw [hge, Bool.and_false]
  · have hd : (floatToDouble x).isNaN = false := by
      rw [floatToDouble_isNaN]
      simpa using hn
    rw [hd, Bool.false_and]

/-- The promotion of a quiet NaN is its fraction padded with 29 zero bits, as for a normal
number: nothing of the datum is changed. -/
theorem floatToDouble_quiet_nan (x : CFloat) (h : x.expo = 255) (hq : 2 ^ 22 ≤ x.frac) :
    (floatToDouble x).frac = x.frac * 2 ^ 29 := by
  have hfrac := x.frac_lt
  have hf : x.frac ≠ 0 := by omega
  rw [(floatToDouble_nan x h hf).2]
  omega

/-- Every datum that is not a NaN compares equal to itself. -/
theorem eq_self_of_not_nan {w t : Nat} (a : Binary w t) (h : a.isNaN = false) :
    a.eq a = true := by
  unfold Binary.eq
  rw [h]
  by_cases hz : a.isZero = true
  · simp [hz]
  · simp [hz]

/-- A NaN compares equal to nothing, itself included. -/
theorem eq_false_of_nan {w t : Nat} (a b : Binary w t) (h : a.isNaN = true) :
    a.eq b = false := by
  unfold Binary.eq
  rw [h]
  rfl

/-! ## The literals `0.01f` and `0.01` -/

/-- The literal `0.01f` denotes `10737418 / 2 ^ 30`. -/
theorem literal_0_01f_toValue :
    literal_0_01f.toValue = FpValue.finite false (10737418 / 2 ^ 30) := by
  unfold Binary.toValue literal_0_01f
  rw [bias_float]
  rw [if_neg (by decide), if_neg (by decide)]
  congr 1
  norm_num

/-- The literal `0.01` denotes `5764607523034235 / 2 ^ 59`. -/
theorem literal_0_01_toValue :
    literal_0_01.toValue = FpValue.finite false (5764607523034235 / 2 ^ 59) := by
  unfold Binary.toValue literal_0_01
  rw [bias_double]
  rw [if_neg (by decide), if_neg (by decide)]
  congr 1
  norm_num

/-- The three shapes of a datum that denotes a rational number: negative sign, subnormal or
zero, normal. -/
theorem toRat_cases {w t : Nat} (y : Binary w t) (q : ℚ) (h : y.toValue.toRat = some q) :
    (y.sign = true ∧ q ≤ 0) ∨
    (y.sign = false ∧ y.expo = 0 ∧
      q = (y.frac : ℚ) * (2 : ℚ) ^ ((1 : Int) - Binary.bias w - (t : Int))) ∨
    (y.sign = false ∧ y.expo ≠ 0 ∧
      q = ((2 ^ t + y.frac : Nat) : ℚ) * (2 : ℚ) ^ ((y.expo : Int) - Binary.bias w - (t : Int))) := by
  have hpow : ∀ e : Int, (0 : ℚ) < (2 : ℚ) ^ e := fun e => zpow_pos (by norm_num) e
  unfold Binary.toValue at h
  by_cases hs : y.expo = 2 ^ w - 1
  · rw [if_pos hs] at h
    split_ifs at h <;> simp [FpValue.toRat] at h
  · rw [if_neg hs] at h
    by_cases h0 : y.expo = 0
    · rw [if_pos h0] at h
      simp only [FpValue.toRat, Option.some.injEq] at h
      cases hb : y.sign with
      | true =>
        left
        rw [hb] at h
        simp only [if_true] at h
        refine ⟨rfl, ?_⟩
        rw [← h]
        have hf : (0 : ℚ) ≤ (y.frac : ℚ) := Nat.cast_nonneg y.frac
        have := mul_nonneg hf (le_of_lt (hpow ((1 : Int) - Binary.bias w - (t : Int))))
        linarith
      | false =>
        right; left
        rw [hb] at h
        simp only [Bool.false_eq_true, if_false] at h
        exact ⟨rfl, h0, h.symm⟩
    · rw [if_neg h0] at h
      simp only [FpValue.toRat, Option.some.injEq] at h
      cases hb : y.sign with
      | true =>
        left
        rw [hb] at h
        simp only [if_true] at h
        refine ⟨rfl, ?_⟩
        rw [← h]
        have hf : (0 : ℚ) ≤ ((2 ^ t + y.frac : Nat) : ℚ) := Nat.cast_nonneg (2 ^ t + y.frac)
        have := mul_nonneg hf (le_of_lt (hpow ((y.expo : Int) - Binary.bias w - (t : Int))))
        linarith
      | false =>
        right; right
        rw [hb] at h
        simp only [Bool.false_eq_true, if_false] at h
        exact ⟨rfl, h0, h.symm⟩

/-- A positive normal datum `c` with non-zero fraction that lies within half a unit in the last
place of the rational `r` is the datum of its format nearest to `r`: every other finite datum is
strictly farther from `r`. -/
theorem nearest_of_within_half_ulp {w t : Nat} (c y : Binary w t) (r q : ℚ)
    (hexp : c.expo ≠ 0) (hfrac : 0 < c.frac)
    (hclose : |((2 ^ t + c.frac : Nat) : ℚ) * (2 : ℚ) ^ ((c.expo : Int) - Binary.bias w - (t : Int))
        - r| < (2 : ℚ) ^ ((c.expo : Int) - Binary.bias w - (t : Int)) / 2)
    (hy : y.toValue.toRat = some q) :
    q = ((2 ^ t + c.frac : Nat) : ℚ) * (2 : ℚ) ^ ((c.expo : Int) - Binary.bias w - (t : Int)) ∨
    |((2 ^ t + c.frac : Nat) : ℚ) * (2 : ℚ) ^ ((c.expo : Int) - Binary.bias w - (t : Int)) - r|
      < |q - r| := by
  have hpow : ∀ e : Int, (0 : ℚ) < (2 : ℚ) ^ e := fun e => zpow_pos (by norm_num) e
  have hmono : ∀ a b : Int, a ≤ b → (2 : ℚ) ^ a ≤ (2 : ℚ) ^ b :=
    fun a b hab => zpow_le_zpow_right₀ (by norm_num) hab
  have hyfrac := y.frac_lt
  generalize hu : (2 : ℚ) ^ ((c.expo : Int) - Binary.bias w - (t : Int)) = u at hclose ⊢
  have hupos : 0 < u := by rw [← hu]; exact hpow _
  have hM : ((2 ^ t + c.frac : Nat) : ℚ) = (2 : ℚ) ^ t + (c.frac : ℚ) := by push_cast; ring
  have hfrac1 : (1 : ℚ) ≤ (c.frac : ℚ) := by exact_mod_cast hfrac
  have ht : (0 : ℚ) < (2 : ℚ) ^ t := pow_pos (by norm_num) t
  obtain ⟨hlo, hhi⟩ := abs_lt.1 hclose
  -- every value not above `2 ^ t * u` is farther than half an ulp from `r`
  have hsmall : q ≤ (2 : ℚ) ^ t * u →
      |((2 ^ t + c.frac : Nat) : ℚ) * u - r| < |q - r| := by
    intro hq
    have h1 : u / 2 < r - q := by
      rw [hM] at hlo
      nlinarith
    have h2 : r - q ≤ |q - r| := by
      rw [abs_sub_comm]; exact le_abs_self _
    linarith
  rcases toRat_cases y q hy with ⟨_, hq⟩ | ⟨_, h0, hq⟩ | ⟨_, h0, hq⟩
  · right
    apply hsmall
    have := mul_pos ht hupos
    linarith
  · right
    apply hsmall
    rw [hq]
    have hle : (2 : ℚ) ^ ((1 : Int) - Binary.bias w - (t : Int)) ≤ u := by
      rw [← hu]
      apply hmono
      have : (1 : Int) ≤ (c.expo : Int) := by exact_mod_cast Nat.one_le_iff_ne_zero.2 hexp
      omega
    have hfl : (y.frac : ℚ) ≤ (2 : ℚ) ^ t := by exact_mod_cast le_of_lt hyfrac
    have hf0 : (0 : ℚ) ≤ (y.frac : ℚ) := Nat.cast_nonneg y.frac
    calc (y.frac : ℚ) * (2 : ℚ) ^ ((1 : Int) - Binary.bias w - (t : Int))
        ≤ (y.frac : ℚ) * u := mul_le_mul_of_nonneg_left hle hf0
      _ ≤ (2 : ℚ) ^ t * u := mul_le_mul_of_nonneg_right hfl (le_of_lt hupos)
  · by_cases hlt : y.expo < c.expo
    · right
      apply hsmall
      rw [hq]
      have hle : (2 : ℚ) ^ ((y.expo : Int) - Binary.bias w - (t : Int)) ≤ u / 2 := by
        have hsplit : u = (2 : ℚ) ^ (((c.expo : Int) - 1 - Binary.bias w - (t : Int)) + 1) := by
          rw [← hu]; congr 1; ring
        rw [hsplit, two_zpow_split]
        have : (2 : ℚ) ^ ((y.expo : Int) - Binary.bias w - (t : Int))
            ≤ (2 : ℚ) ^ ((c.expo : Int) - 1 - Binary.bias w - (t : Int)) := by
          apply hmono
          have : (y.expo : Int) < (c.expo : Int) := by exact_mod_cast hlt
          omega
        norm_num
        linarith
      have hfl : ((2 ^ t + y.frac : Nat) : ℚ) ≤ 2 * (2 : ℚ) ^ t := by
        have : (y.frac : ℚ) ≤ (2 : ℚ) ^ t := by exact_mod_cast le_of_lt hyfrac
        push_cast
        linarith
      have hf0 : (0 : ℚ) ≤ ((2 ^ t + y.frac : Nat) : ℚ) := Nat.cast_nonneg _
      calc ((2 ^ t + y.frac : Nat) : ℚ) * (2 : ℚ) ^ ((y.expo : Int) - Binary.bias w - (t : Int))
          ≤ ((2 ^ t + y.frac : Nat) : ℚ) * (u / 2) := mul_le_mul_of_nonneg_left hle hf0
        _ ≤ (2 * (2 : ℚ) ^ t) * (u / 2) :=
            mul_le_mul_of_nonneg_right hfl (by linarith)
        _ = (2 : ℚ) ^ t * u := by ring
    · have hge : c.expo ≤ y.expo := Nat.le_of_not_lt hlt
      have hscale : (2 : ℚ) ^ ((y.expo : Int) - Binary.bias w - (t : Int))
          = ((2 ^ (y.expo - c.expo) : Nat) : ℚ) * u := by
        have he : ((y.expo : Int) - Binary.bias w - (t : Int))
            = ((y.expo - c.expo : Nat) : Int) + ((c.expo : Int) - Binary.bias w - (t : Int)) := by
          have : ((y.expo - c.expo : Nat) : Int) = (y.expo : Int) - (c.expo : Int) := by
            omega
          rw [this]; ring
        rw [he, two_zpow_split, hu, zpow_natCast]
        push_cast
        ring
      have hqK : q = (((2 ^ t + y.frac) * 2 ^ (y.expo - c.expo) : Nat) : ℚ) * u := by
        rw [hq, hscale]
        push_cast
        ring
      by_cases hK : (2 ^ t + y.frac) * 2 ^ (y.expo - c.expo) = 2 ^ t + c.frac
      · left
        rw [hqK, hK]
      · right
        have hdist : u ≤ |q - ((2 ^ t + c.frac : Nat) : ℚ) * u| := by
          rw [hqK, ← sub_mul, abs_mul, abs_of_pos hupos]
          have hone : (1 : ℚ) ≤ |(((2 ^ t + y.frac) * 2 ^ (y.expo - c.expo) : Nat) : ℚ)
              - ((2 ^ t + c.frac : Nat) : ℚ)| := by
            have hint : (1 : Int) ≤ |(((2 ^ t + y.frac) * 2 ^ (y.expo - c.expo) : Nat) : Int)
                - ((2 ^ t + c.frac : Nat) : Int)| := by
              have hne : (((2 ^ t + y.frac) * 2 ^ (y.expo - c.expo) : Nat) : Int)
                  - ((2 ^ t + c.frac : Nat) : Int) ≠ 0 := by
                intro h
                apply hK
                have := sub_eq_zero.1 h
                exact_mod_cast this
              exact Int.one_le_abs hne
            have hcast : ((|(((2 ^ t + y.frac) * 2 ^ (y.expo - c.expo) : Nat) : Int)
                - ((2 ^ t + c.frac : Nat) : Int)| : Int) : ℚ)
                = |(((2 ^ t + y.frac) * 2 ^ (y.expo - c.expo) : Nat) : ℚ)
                  - ((2 ^ t + c.frac : Nat) : ℚ)| := by
              push_cast
              rfl
            rw [← hcast]
            exact_mod_cast hint
          nlinarith
        have htri : |q - ((2 ^ t + c.frac : Nat) : ℚ) * u|
            ≤ |q - r| + |((2 ^ t + c.frac : Nat) : ℚ) * u - r| := by
          have := abs_sub_le q r (((2 ^ t + c.frac : Nat) : ℚ) * u)
          rw [abs_sub_comm r] at this
          exact this
        linarith

/-- The datum `literal_0_01f` is the binary32 number nearest to 1/100, as the literal `0.01f`
requires. -/
theorem literal_0_01f_nearest (y : CFloat) (q : ℚ) (hy : y.toValue.toRat = some q) :
    q = 10737418 / 2 ^ 30 ∨ |(10737418 : ℚ) / 2 ^ 30 - 1 / 100| < |q - 1 / 100| := by
  have hval : ((2 ^ 23 + literal_0_01f.frac : Nat) : ℚ)
      * (2 : ℚ) ^ ((literal_0_01f.expo : Int) - Binary.bias 8 - ((23 : Nat) : Int))
      = 10737418 / 2 ^ 30 := by
    rw [bias_float]
    unfold literal_0_01f
    norm_num
  have hulp : (2 : ℚ) ^ ((literal_0_01f.expo : Int) - Binary.bias 8 - ((23 : Nat) : Int))
      = 1 / 2 ^ 30 := by
    rw [bias_float]
    unfold literal_0_01f
    norm_num
  have h := nearest_of_within_half_ulp literal_0_01f y (1 / 100) q (by decide) (by decide)
    (by
      rw [hval, hulp, abs_lt]
      constructor <;> norm_num) hy
  rw [hval] at h
  exact h

/-- The datum `literal_0_01` is the binary64 number nearest to 1/100, as the literal `0.01`
requires. -/
theorem literal_0_01_nearest (y : CDouble) (q : ℚ) (hy : y.toValue.toRat = some q) :
    q = 5764607523034235 / 2 ^ 59 ∨
      |(5764607523034235 : ℚ) / 2 ^ 59 - 1 / 100| < |q - 1 / 100| := by
  have hval : ((2 ^ 52 + literal_0_01.frac : Nat) : ℚ)
      * (2 : ℚ) ^ ((literal_0_01.expo : Int) - Binary.bias 11 - ((52 : Nat) : Int))
      = 5764607523034235 / 2 ^ 59 := by
    rw [bias_double]
    unfold literal_0_01
    norm_num
  have hulp : (2 : ℚ) ^ ((literal_0_01.expo : Int) - Binary.bias 11 - ((52 : Nat) : Int))
      = 1 / 2 ^ 59 := by
    rw [bias_double]
    unfold literal_0_01
    norm_num
  have h := nearest_of_within_half_ulp literal_0_01 y (1 / 100) q (by decide) (by decide)
    (by
      rw [hval, hulp, abs_lt]
      constructor <;> norm_num) hy
  rw [hval] at h
  exact h

/-! ## The comparison of the format -/

/-- The lexicographic order on exponent and fraction fields is the order of magnitudes. -/
theorem magLt_iff_scaled_lt {w t : Nat} (a b : Binary w t) :
    a.magLt b = true ↔ a.scaled < b.scaled := by
  have hfa := a.frac_lt
  have hfb := b.frac_lt
  have key : ∀ x y : Binary w t, x.expo < y.expo → x.scaled < y.scaled := by
    intro x y hxy
    have hfx := x.frac_lt
    have hy0 : y.expo ≠ 0 := by omega
    have hylow : 2 ^ t * 2 ^ (y.expo - 1) ≤ y.scaled := by
      unfold Binary.scaled
      rw [if_neg hy0]
      exact Nat.mul_le_mul_right _ (Nat.le_add_right _ _)
    by_cases hx0 : x.expo = 0
    · have hone : 1 ≤ 2 ^ (y.expo - 1) := Nat.one_le_two_pow
      have : x.scaled = x.frac := by unfold Binary.scaled; rw [if_pos hx0]
      rw [this]
      calc x.frac < 2 ^ t := hfx
        _ = 2 ^ t * 1 := (Nat.mul_one _).symm
        _ ≤ 2 ^ t * 2 ^ (y.expo - 1) := Nat.mul_le_mul_left _ hone
        _ ≤ y.scaled := hylow
    · have hxs : x.scaled = (2 ^ t + x.frac) * 2 ^ (x.expo - 1) := by
        unfold Binary.scaled; rw [if_neg hx0]
      have hpow : 2 * 2 ^ (x.expo - 1) ≤ 2 ^ (y.expo - 1) := by
        have : 2 * 2 ^ (x.expo - 1) = 2 ^ (x.expo - 1 + 1) := by rw [Nat.pow_succ]; ring
        rw [this]
        exact Nat.pow_le_pow_right (by decide) (by omega)
      have hpos : 0 < 2 ^ (x.expo - 1) := Nat.pos_pow_of_pos _ (by decide)
      rw [hxs]
      calc (2 ^ t + x.frac) * 2 ^ (x.expo - 1)
          < (2 ^ t + 2 ^ t) * 2 ^ (x.expo - 1) :=
            Nat.mul_lt_mul_of_pos_right (by omega) hpos
        _ = 2 ^ t * (2 * 2 ^ (x.expo - 1)) := by ring
        _ ≤ 2 ^ t * 2 ^ (y.expo - 1) := Nat.mul_le_mul_left _ hpow
        _ ≤ y.scaled := hylow
  unfold Binary.magLt
  rcases Nat.lt_trichotomy a.expo b.expo with h | h | h
  · have := key a b h
    simp [h, this]
  · have hs : a.scaled < b.scaled ↔ a.frac < b.frac := by
      unfold Binary.scaled
      rw [h]
      by_cases hb0 : b.expo = 0
      · rw [if_pos hb0, if_pos hb0]
      · rw [if_neg hb0, if_neg hb0]
        have hpos : 0 < 2 ^ (b.expo - 1) := Nat.pos_pow_of_pos _ (by decide)
        rw [Nat.mul_lt_mul_right hpos]
        omega
    simp [h, hs]
  · have := key b a h
    have h1 : ¬ a.expo < b.expo := by omega
    have h2 : ¬ a.expo = b.expo := by omega
    have h3 : ¬ a.scaled < b.scaled := by omega
    simp [h1, h2, h3]

/-- Value of a finite datum in units of the smallest subnormal number. -/
theorem toValue_of_finite {w t : Nat} (x : Binary w t) (h : x.expo ≠ 2 ^ w - 1) :
    x.toValue = FpValue.finite x.sign
      ((x.scaled : ℚ) * (2 : ℚ) ^ ((1 : Int) - Binary.bias w - (t : Int))) := by
  unfold Binary.toValue Binary.scaled
  rw [if_neg h]
  by_cases h0 : x.expo = 0
  · rw [if_pos h0, if_pos h0]
  · rw [if_neg h0, if_neg h0]
    congr 1
    have he : ((x.expo : Int) - Binary.bias w - (t : Int))
        = ((x.expo - 1 : Nat) : Int) + ((1 : Int) - Binary.bias w - (t : Int)) := by
      have : ((x.expo - 1 : Nat) : Int) = (x.expo : Int) - 1 := by omega
      rw [this]; ring
    rw [he, two_zpow_split, zpow_natCast]
    push_cast
    ring

/-- A datum denotes the rational `q` exactly when it is finite and `q` is its signed magnitude. -/
theorem toRat_eq_some_iff {w t : Nat} (x : Binary w t) (q : ℚ) :
    x.toValue.toRat = some q ↔
      (x.expo ≠ 2 ^ w - 1 ∧
        q = (if x.sign = true then -1 else 1) *
          ((x.scaled : ℚ) * (2 : ℚ) ^ ((1 : Int) - Binary.bias w - (t : Int)))) := by
  by_cases h : x.expo = 2 ^ w - 1
  · have : x.toValue.toRat = none := by
      unfold Binary.toValue
      rw [if_pos h]
      split_ifs <;> rfl
    simp [this, h]
  · rw [toValue_of_finite x h]
    cases hs : x.sign <;> simp [FpValue.toRat, h, eq_comm]

/-- A datum is a zero exactly when its magnitude is 0. -/
theorem isZero_iff_scaled {w t : Nat} (x : Binary w t) : x.isZero = true ↔ x.scaled = 0 := by
  unfold Binary.isZero Binary.scaled
  by_cases h0 : x.expo = 0
  · simp [h0]
  · simp [h0]

/-- On finite data the comparison `<` of the format is the order of the rational numbers they
denote. -/
theorem lt_iff_toRat_lt {w t : Nat} (a b : Binary w t) (qa qb : ℚ)
    (ha : a.toValue.toRat = some qa) (hb : b.toValue.toRat = some qb) :
    a.lt b = true ↔ qa < qb := by
  obtain ⟨hfa, hqa⟩ := (toRat_eq_some_iff a qa).1 ha
  obtain ⟨hfb, hqb⟩ := (toRat_eq_some_iff b qb).1 hb
  have hU : (0 : ℚ) < (2 : ℚ) ^ ((1 : Int) - Binary.bias w - (t : Int)) :=
    zpow_pos (by norm_num) _
  generalize (2 : ℚ) ^ ((1 : Int) - Binary.bias w - (t : Int)) = U at hqa hqb hU
  have hna : a.isNaN = false := by
    unfold Binary.isNaN
    simp [hfa]
  have hnb : b.isNaN = false := by
    unfold Binary.isNaN
    simp [hfb]
  have hza := isZero_iff_scaled a
  have hzb := isZero_iff_scaled b
  have hm1 := magLt_iff_scaled_lt a b
  have hm2 := magLt_iff_scaled_lt b a
  have hsa : (0 : ℚ) ≤ (a.scaled : ℚ) := Nat.cast_nonneg _
  have hsb : (0 : ℚ) ≤ (b.scaled : ℚ) := Nat.cast_nonneg _
  have hcast : ∀ m n : Nat, (m : ℚ) * U < (n : ℚ) * U ↔ m < n := by
    intro m n
    rw [mul_lt_mul_right hU]
    exact Nat.cast_lt
  unfold Binary.lt
  rw [hna, hnb]
  simp only [Bool.or_self, Bool.false_eq_true, if_false]
  by_cases hz : a.isZero = true ∧ b.isZero = true
  · have h1 : a.scaled = 0 := hza.1 hz.1
    have h2 : b.scaled = 0 := hzb.1 hz.2
    rw [hqa, hqb, h1, h2]
    simp [hz.1, hz.2]
  · have hz2 : ¬ (a.scaled = 0 ∧ b.scaled = 0) := fun h => hz ⟨hza.2 h.1, hzb.2 h.2⟩
    have hif : (a.isZero && b.isZero) = false := by
      cases h1 : a.isZero <;> cases h2 : b.isZero <;> simp_all
    rw [hif]
    simp only [Bool.false_eq_true, if_false]
    cases hsga : a.sign <;> cases hsgb : b.sign
    · rw [hsga] at hqa; rw [hsgb] at hqb
      simp only [Bool.false_eq_true, if_false, one_mul] at hqa hqb
      rw [hqa, hqb, hcast]
      exact hm1
    · rw [hsga] at hqa; rw [hsgb] at hqb
      simp only [Bool.false_eq_true, if_false, if_true, one_mul] at hqa hqb
      have h1 : 0 ≤ (a.scaled : ℚ) * U := mul_nonneg hsa (le_of_lt hU)
      have h2 : 0 ≤ (b.scaled : ℚ) * U := mul_nonneg hsb (le_of_lt hU)
      constructor
      · intro h; exact absurd h (by simp)
      · intro h; rw [hqa, hqb] at h; linarith
    · rw [hsga] at hqa; rw [hsgb] at hqb
      simp only [Bool.false_eq_true, if_false, if_true, one_mul] at hqa hqb
      have h1 : 0 ≤ (a.scaled : ℚ) * U := mul_nonneg hsa (le_of_lt hU)
      have h2 : 0 ≤ (b.scaled : ℚ) * U := mul_nonneg hsb (le_of_lt hU)
      constructor
      · intro _
        rw [hqa, hqb]
        have hpos : 0 < a.scaled ∨ 0 < b.scaled := by omega
        rcases hpos with hp | hp
        · have : (0 : ℚ) < (a.scaled : ℚ) * U := mul_pos (by exact_mod_cast hp) hU
          linarith
        · have : (0 : ℚ) < (b.scaled : ℚ) * U := mul_pos (by exact_mod_cast hp) hU
          linarith
      · intro _; rfl
    · rw [hsga] at hqa; rw [hsgb] at hqb
      simp only [if_true] at hqa hqb
      rw [hqa, hqb]
      have : (-1 * ((a.scaled : ℚ) * U) < -1 * ((b.scaled : ℚ) * U))
          ↔ (b.scaled : ℚ) * U < (a.scaled : ℚ) * U := by
        constructor <;> intro h <;> linarith
      rw [this, hcast]
      exact hm2

/-! ## Frame of the setters -/

/-- No sequence of setter calls touches the radiance storage. -/
theorem runCalls_radiance {Image : Type} (calls : List SetterCall)
    (self : RobertsonCalibrate Image) : (runCalls self calls)._radiance = self._radiance := by
  induction calls generalizing self with
  | nil => rfl
  | cons c rest ih =>
    have hstep : (SetterCall.apply self c)._radiance = self._radiance := by
      cases c <;> rfl
    simpa [runCalls, List.foldl, hstep] using ih (SetterCall.apply self c)

/-- Both constructors leave the radiance storage empty. -/
theorem constructed_radiance {Image : Type} (self : RobertsonCalibrate Image)
    (h : Constructed self) : self._radiance = [] := by
  rcases h with h | ⟨m, t, _, h⟩ <;> subst h <;> rfl

/-- Setter calls with non-negative `int` caps keep the stored cap below `2 ^ 31`. -/
theorem runCalls_cap_small {Image : Type} (calls : List SetterCall)
    (self : RobertsonCalibrate Image) (hcap : self._maxIteration < 2 ^ 31)
    (hcalls : ∀ c ∈ calls, c.WellTyped ∧ c.NonNegative) :
    (runCalls self calls)._maxIteration < 2 ^ 31 := by
  induction calls generalizing self with
  | nil => exact hcap
  | cons c rest ih =>
    have hc := hcalls c (List.mem_cons_self c rest)
    have hstep : (SetterCall.apply self c)._maxIteration < 2 ^ 31 := by
      cases c with
      | setMaxIteration value =>
        have h1 : IsInt value := hc.1
        have h2 : 0 ≤ value := hc.2
        have h3 := intToSizeT_of_nonneg value h2 h1.2
        show intToSizeT value < 2 ^ 31
        unfold IsInt INT_MIN INT_MAX at h1
        omega
      | setThreshold value => exact hcap
    exact ih (SetterCall.apply self c) hstep
      (fun d hd => hcalls d (List.mem_cons_of_mem c hd))

/-! ## The loop of `process` -/

/-- One more pass applies `update` to the curve of the passes before. -/
theorem responseAfter_succ {Curve : Type} (p : Passes Curve) (k : Nat) :
    responseAfter p (k + 1) = p.update (responseAfter p k) := by
  unfold responseAfter
  exact Function.iterate_succ_apply' p.update k p.initial

/-- The monitor says continue exactly when delta exceeds the threshold and the count is below
the cap. -/
theorem monitor_eq_continue (threshold : CDouble) (maxIteration : Nat) (delta : CDouble)
    (iteration : Nat) :
    monitor threshold maxIteration delta iteration = Verdict.continueLoop ↔
      (delta.gt threshold = true ∧ iteration < maxIteration) := by
  unfold monitor
  split_ifs with h
  · simp [h]
  · simp [h]

/-- Loop invariant: entered after `j < maxIteration` passes with fuel for the remaining ones, the
loop returns the state after some pass `n` with `j < n ≤ maxIteration`, at which the monitor's
stop condition holds, while at every pass strictly between it said continue. -/
theorem runLoop_from {Curve : Type} (p : Passes Curve) (threshold : CDouble)
    (maxIteration : Nat) :
    ∀ (fuel j : Nat) (st : IterationState Curve),
      st.response = responseAfter p j → st.iteration = j →
      j < maxIteration → maxIteration ≤ j + fuel →
      ∃ n, j < n ∧ n ≤ maxIteration ∧
        runLoop p threshold maxIteration fuel st
          = some { response := responseAfter p n, iteration := n,
                   delta := some (deltaOfPass p n) } ∧
        ((deltaOfPass p n).gt threshold = false ∨ n = maxIteration) ∧
        ∀ k, j < k → k < n → ((deltaOfPass p k).gt threshold = true ∧ k < maxIteration) := by
  intro fuel
  induction fuel with
  | zero =>
    intro j st _ _ hj hfuel
    omega
  | succ fuel ih =>
    intro j st hresp hiter hj hfuel
    have hstep : iteratingStep p st
        = { response := responseAfter p (j + 1), iteration := j + 1,
            delta := some (deltaOfPass p (j + 1)) } := by
      unfold iteratingStep deltaOfPass
      rw [hresp, hiter, responseAfter_succ]
      rfl
    have hdelta : p.delta st.response (p.update st.response) = deltaOfPass p (j + 1) := by
      unfold deltaOfPass
      rw [hresp, responseAfter_succ]
      rfl
    by_cases hc : (deltaOfPass p (j + 1)).gt threshold = true ∧ j + 1 < maxIteration
    · have hm : monitor threshold maxIteration (deltaOfPass p (j + 1)) (j + 1)
          = Verdict.continueLoop := (monitor_eq_continue _ _ _ _).2 hc
      obtain ⟨n, hn1, hn2, hrun, hstop, hbefore⟩ :=
        ih (j + 1) (iteratingStep p st) (by rw [hstep]) (by rw [hstep]) hc.2 (by omega)
      refine ⟨n, by omega, hn2, ?_, hstop, ?_⟩
      · show (match monitor threshold maxIteration (p.delta st.response (p.update st.response))
            (st.iteration + 1) with
          | Verdict.continueLoop => runLoop p threshold maxIteration fuel (iteratingStep p st)
          | Verdict.stop => some (iteratingStep p st)) = _
        rw [hdelta, hiter, hm]
        exact hrun
      · intro k hk1 hk2
        by_cases hk : k = j + 1
        · subst hk
          exact hc
        · exact hbefore k (by omega) hk2
    · have hm : monitor threshold maxIteration (deltaOfPass p (j + 1)) (j + 1)
          = Verdict.stop := by
        cases hv : monitor threshold maxIteration (deltaOfPass p (j + 1)) (j + 1) with
        | continueLoop => exact absurd ((monitor_eq_continue _ _ _ _).1 hv) hc
        | stop => rfl
      refine ⟨j + 1, by omega, by omega, ?_, ?_, ?_⟩
      · show (match monitor threshold maxIteration (p.delta st.response (p.update st.response))
            (st.iteration + 1) with
          | Verdict.continueLoop => runLoop p threshold maxIteration fuel (iteratingStep p st)
          | Verdict.stop => some (iteratingStep p st)) = _
        rw [hdelta, hiter, hm]
        exact congrArg some hstep
      · by_cases hg : (deltaOfPass p (j + 1)).gt threshold = true
        · right
          have : ¬ j + 1 < maxIteration := fun h => hc ⟨hg, h⟩
          omega
        · left
          simpa using hg
      · intro k hk1 hk2
        omega

/-- With threshold 1.0 and deltas of 1.0 the loop stops after its first pass. -/
theorem process_stops_on_convergence :
    calibratorWithTwoMaps.process steadyPasses 500
      = some { response := 1, iteration := 1, delta := some double_one } := by
  rfl

/-- With threshold `0.01f`, deltas of 1.0 and cap 3 the loop runs exactly 3 passes, and fuel for
2 passes is not enough. -/
theorem process_stops_at_cap :
    (RobertsonCalibrate.ctor 3 (floatToDouble literal_0_01f) : RobertsonCalibrate Nat).process
        steadyPasses 3
      = some { response := 3, iteration := 3, delta := some double_one } ∧
    (RobertsonCalibrate.ctor 3 (floatToDouble literal_0_01f) : RobertsonCalibrate Nat).process
        steadyPasses 2 = none := by
  constructor <;> rfl

/-- With cap 0, which the calibrator's configuration rules exclude, the loop still runs its one
pass before the monitor stops it. -/
theorem process_cap_zero_runs_once :
    (RobertsonCalibrate.ctor 0 (floatToDouble literal_0_01f) : RobertsonCalibrate Nat).process
        steadyPasses 1
      = some { response := 1, iteration := 1, delta := some double_one } := by
  rfl

/-! ## The claims -/

/-- C1: `getRadiance(g)` returns exactly the `g`-th stored radiance map and leaves the calibrator
as it was when `g` is below the number of stored maps, and fails its assertion otherwise; a
calibrator built by either constructor and never run (setter calls allowed) stores no radiance
map, so `getRadiance(g)` fails for every `g`. -/
theorem getRadiance_contract {Image : Type} (self : RobertsonCalibrate Image) (g : Nat) :
    (∀ h : g < self._radiance.length,
        self.getRadiance g = Except.ok (self._radiance.get ⟨g, h⟩, self)) ∧
    (self._radiance.length ≤ g → self.getRadiance g = Except.error Fault.assertionFailed) ∧
    (∀ calls : List SetterCall, Constructed self →
        (runCalls self calls)._radiance = [] ∧
        (runCalls self calls).getRadiance g = Except.error Fault.assertionFailed) := by
  refine ⟨?_, ?_, ?_⟩
  · intro h
    simp [RobertsonCalibrate.getRadiance, h]
  · intro h
    have hn : ¬ g < self._radiance.length := Nat.not_lt.mpr h
    simp [RobertsonCalibrate.getRadiance, hn]
  · intro calls hc
    have hr : (runCalls self calls)._radiance = [] := by
      rw [runCalls_radiance, constructed_radiance self hc]
    refine ⟨hr, ?_⟩
    simp [RobertsonCalibrate.getRadiance, hr]

/-- Witness for C1: on a calibrator holding the maps 7 and 8, index 1 yields map 8 and index 2
fails; on a default-constructed calibrator index 0 fails. -/
theorem getRadiance_contract_witness :
    calibratorWithTwoMaps.getRadiance 1 = Except.ok (8, calibratorWithTwoMaps) ∧
    calibratorWithTwoMaps.getRadiance 2 = Except.error Fault.assertionFailed ∧
    (runCalls (RobertsonCalibrate.defaultCtor : RobertsonCalibrate Nat)
        [SetterCall.setMaxIteration 3]).getRadiance 0 = Except.error Fault.assertionFailed :=
  ⟨(getRadiance_contract calibratorWithTwoMaps 1).1 (by decide),
   (getRadiance_contract calibratorWithTwoMaps 2).2.1 (by decide),
   ((getRadiance_contract (RobertsonCalibrate.defaultCtor : RobertsonCalibrate Nat) 0).2.2
      [SetterCall.setMaxIteration 3] (Or.inl rfl)).2⟩

/-- C2: for every `int` value `v`, `setMaxIteration(v)` followed by `getMaxIteration()` returns
`v`, whatever cap was configured before. -/
theorem getMaxIteration_setMaxIteration {Image : Type} (self : RobertsonCalibrate Image)
    (v : Int) (hv : IsInt v) :
    ((self.setMaxIteration v).getMaxIteration).1 = v ∧
    ∀ other : RobertsonCalibrate Image,
      ((other.setMaxIteration v).getMaxIteration).1 = ((self.setMaxIteration v).getMaxIteration).1 :=
  ⟨sizeTToInt_intToSizeT v hv, fun _ => rfl⟩

/-- Witness for C2 at `v = -5` on a calibrator whose cap was 500. -/
theorem getMaxIteration_setMaxIteration_witness :
    IsInt (-5) ∧ ((calibratorWithTwoMaps.setMaxIteration (-5)).getMaxIteration).1 = -5 :=
  ⟨by decide, (getMaxIteration_setMaxIteration calibratorWithTwoMaps (-5) (by decide)).1⟩

/-- C3: for a valid configuration (iteration cap above 0) the iteration loop of `process`
terminates: given fuel for `maxIteration` passes or more it returns the state after a number `n`
of full passes with `1 ≤ n ≤ maxIteration`; at pass `n` the delta is not greater than the
threshold or `n` has reached `maxIteration`, and at every earlier pass the delta was greater than
the threshold and the count below `maxIteration` (so the loop stopped as soon as it could). -/
theorem process_terminates {Image Curve : Type} (self : RobertsonCalibrate Image)
    (p : Passes Curve) (fuel : Nat) (hvalid : 0 < self._maxIteration)
    (hfuel : self._maxIteration ≤ fuel) :
    ∃ n, 1 ≤ n ∧ n ≤ self._maxIteration ∧
      self.process p fuel
        = some { response := responseAfter p n, iteration := n,
                 delta := some (deltaOfPass p n) } ∧
      ((deltaOfPass p n).gt self._threshold = false ∨ n = self._maxIteration) ∧
      ∀ k, 1 ≤ k → k < n →
        ((deltaOfPass p k).gt self._threshold = true ∧ k < self._maxIteration) := by
  obtain ⟨n, hn1, hn2, hrun, hstop, hbefore⟩ :=
    runLoop_from p self._threshold self._maxIteration fuel 0
      { response := p.initial, iteration := 0, delta := none } rfl rfl hvalid (by omega)
  exact ⟨n, hn1, hn2, hrun, hstop, fun k hk1 hk2 => hbefore k hk1 hk2⟩

/-- Witness for C3: the calibrator with cap 500 and threshold 1.0 run on passes of delta 1.0. -/
theorem process_terminates_witness :
    0 < calibratorWithTwoMaps._maxIteration ∧
    ∃ n, 1 ≤ n ∧ n ≤ calibratorWithTwoMaps._maxIteration ∧
      calibratorWithTwoMaps.process steadyPasses 500
        = some { response := responseAfter steadyPasses n, iteration := n,
                 delta := some (deltaOfPass steadyPasses n) } ∧
      ((deltaOfPass steadyPasses n).gt calibratorWithTwoMaps._threshold = false ∨
        n = calibratorWithTwoMaps._maxIteration) ∧
      ∀ k, 1 ≤ k → k < n →
        ((deltaOfPass steadyPasses k).gt calibratorWithTwoMaps._threshold = true ∧
          k < calibratorWithTwoMaps._maxIteration) :=
  ⟨by decide, process_terminates calibratorWithTwoMaps steadyPasses 500 (by decide) (by decide)⟩

/-- C4: a default-constructed calibrator reports an iteration cap of 500. -/
theorem getMaxIteration_defaultCtor {Image : Type} :
    ((RobertsonCalibrate.defaultCtor : RobertsonCalibrate Image).getMaxIteration).1 = 500 := by
  show sizeTToInt 500 = 500
  decide

/-- C5, as amended: a default-constructed calibrator reports the threshold 0.01 rounded to single
precision: `getThreshold()` returns the promotion of the literal `0.01f`, whose value is exactly
`10737418 / 2 ^ 30`, less than `1 / 4 * 2 ^ (-30)` below 1/100. -/
theorem getThreshold_defaultCtor {Image : Type} :
    ((RobertsonCalibrate.defaultCtor : RobertsonCalibrate Image).getThreshold).1
      = floatToDouble literal_0_01f ∧
    ((RobertsonCalibrate.defaultCtor : RobertsonCalibrate Image).getThreshold).1.toValue
      = FpValue.finite false (10737418 / 2 ^ 30) ∧
    (0 : ℚ) < 1 / 100 - 10737418 / 2 ^ 30 ∧ (1 : ℚ) / 100 - 10737418 / 2 ^ 30 < 1 / 2 ^ 32 := by
  refine ⟨rfl, ?_, by norm_num, by norm_num⟩
  show (floatToDouble literal_0_01f).toValue = _
  rw [floatToDouble_toValue, literal_0_01f_toValue]

/-- C5 fails as stated: the threshold of a default-constructed calibrator is not the `double`
0.01; neither the datum nor the value it denotes is the same. -/
theorem defaultCtor_threshold_ne_double :
    ((RobertsonCalibrate.defaultCtor : RobertsonCalibrate Nat).getThreshold).1 ≠ literal_0_01 ∧
    ((RobertsonCalibrate.defaultCtor : RobertsonCalibrate Nat).getThreshold).1.toValue
      ≠ literal_0_01.toValue := by
  have hv : ((RobertsonCalibrate.defaultCtor : RobertsonCalibrate Nat).getThreshold).1.toValue
      ≠ literal_0_01.toValue := by
    show (floatToDouble literal_0_01f).toValue ≠ _
    rw [floatToDouble_toValue, literal_0_01f_toValue, literal_0_01_toValue]
    intro h
    have hq : (10737418 : ℚ) / 2 ^ 30 = 5764607523034235 / 2 ^ 59 := by
      injection h
    norm_num at hq
  exact ⟨fun h => hv (congrArg Binary.toValue h), hv⟩

/-- C6: `setMaxIteration` leaves the threshold and the radiance maps unchanged, `setThreshold`
leaves the iteration cap and the radiance maps unchanged, and the three getters leave the whole
calibrator unchanged (`getRadiance` whenever it returns). -/
theorem setters_getters_frame {Image : Type} (self : RobertsonCalibrate Image) (v : Int)
    (x : CFloat) (g : Nat) :
    ((self.setMaxIteration v)._threshold = self._threshold ∧
      (self.setMaxIteration v)._radiance = self._radiance) ∧
    ((self.setThreshold x)._maxIteration = self._maxIteration ∧
      (self.setThreshold x)._radiance = self._radiance) ∧
    (self.getMaxIteration).2 = self ∧
    (self.getThreshold).2 = self ∧
    (self.getRadiance g).toOption.map Prod.snd =
      if g < self._radiance.length then some self else none := by
  refine ⟨⟨rfl, rfl⟩, ⟨rfl, rfl⟩, rfl, rfl, ?_⟩
  by_cases h : g < self._radiance.length
  · simp [RobertsonCalibrate.getRadiance, h, Except.toOption]
  · simp [RobertsonCalibrate.getRadiance, h, Except.toOption]

/-- C7, as amended: after the default constructor, or the two-argument constructor called with
`maxIter < 2 ^ 31`, followed by any sequence of `setThreshold` calls and of `setMaxIteration`
calls with non-negative `int` values, `getMaxIteration()` returns a value `≥ 0`. -/
theorem getMaxIteration_nonneg {Image : Type} (maxIter : Nat) (threshold : CDouble)
    (calls : List SetterCall) (hmax : maxIter < 2 ^ 31)
    (hcalls : ∀ c ∈ calls, c.WellTyped ∧ c.NonNegative) :
    0 ≤ ((runCalls (RobertsonCalibrate.defaultCtor : RobertsonCalibrate Image)
          calls).getMaxIteration).1 ∧
    0 ≤ ((runCalls (RobertsonCalibrate.ctor maxIter threshold : RobertsonCalibrate Image)
          calls).getMaxIteration).1 := by
  have hd : (RobertsonCalibrate.defaultCtor : RobertsonCalibrate Image)._maxIteration < 2 ^ 31 := by
    show 500 < 2 ^ 31
    decide
  have h1 := runCalls_cap_small calls (RobertsonCalibrate.defaultCtor : RobertsonCalibrate Image)
    hd hcalls
  have h2 := runCalls_cap_small calls
    (RobertsonCalibrate.ctor maxIter threshold : RobertsonCalibrate Image) hmax hcalls
  constructor
  · exact (sizeTToInt_nonneg_iff _).2 (by omega)
  · exact (sizeTToInt_nonneg_iff _).2 (by omega)

/-- Witness for C7 as amended: caps 7 then 0 set on calibrators built with cap 500 and cap 3. -/
theorem getMaxIteration_nonneg_witness :
    0 ≤ ((runCalls (RobertsonCalibrate.defaultCtor : RobertsonCalibrate Nat)
          [SetterCall.setMaxIteration 7, SetterCall.setThreshold float_half,
           SetterCall.setMaxIteration 0]).getMaxIteration).1 ∧
    0 ≤ ((runCalls (RobertsonCalibrate.ctor 3 double_one : RobertsonCalibrate Nat)
          [SetterCall.setMaxIteration 7, SetterCall.setThreshold float_half,
           SetterCall.setMaxIteration 0]).getMaxIteration).1 :=
  getMaxIteration_nonneg 3 double_one
    [SetterCall.setMaxIteration 7, SetterCall.setThreshold float_half,
     SetterCall.setMaxIteration 0]
    (by decide)
    (by
      intro c hc
      simp only [List.mem_cons, List.mem_singleton, List.not_mem_nil, or_false] at hc
      rcases hc with h | h | h <;> subst h
      · exact ⟨by decide, by decide⟩
      · exact ⟨trivial, trivial⟩
      · exact ⟨by decide, by decide⟩)

/-- C7 fails as stated: `setMaxIteration(-1)` on a default-constructed calibrator is a call with
an `int` argument, and `getMaxIteration()` then returns `-1`. -/
theorem getMaxIteration_negative_reachable :
    Constructed (RobertsonCalibrate.defaultCtor : RobertsonCalibrate Nat) ∧
    (∀ c ∈ [SetterCall.setMaxIteration (-1)], c.WellTyped) ∧
    ((runCalls (RobertsonCalibrate.defaultCtor : RobertsonCalibrate Nat)
        [SetterCall.setMaxIteration (-1)]).getMaxIteration).1 = -1 ∧
    ¬ 0 ≤ ((runCalls (RobertsonCalibrate.defaultCtor : RobertsonCalibrate Nat)
        [SetterCall.setMaxIteration (-1)]).getMaxIteration).1 := by
  have hval : ((runCalls (RobertsonCalibrate.defaultCtor : RobertsonCalibrate Nat)
      [SetterCall.setMaxIteration (-1)]).getMaxIteration).1 = -1 := by
    show sizeTToInt (intToSizeT (-1)) = -1
    decide
  refine ⟨Or.inl rfl, ?_, hval, ?_⟩
  · intro c hc
    simp only [List.mem_singleton] at hc
    subst hc
    show IsInt (-1)
    decide
  · rw [hval]
    decide

/-- C8, as amended: for every `float` value `x`, `setThreshold(x)` followed by `getThreshold()`
returns the `double` that `x` promotes to.  When `x` is not a NaN (a zero of either sign, a
subnormal or normal number, an infinity) that `double` is not a NaN either, denotes the same
value as `x` and compares equal to `x`.  When `x` is a NaN the `double` is a NaN of the same sign
whose quiet bit is set and which carries the 22 payload bits of `x`; for a quiet `x` this is `x`
with its fraction padded by 29 zero bits. -/
theorem getThreshold_setThreshold {Image : Type} (self : RobertsonCalibrate Image)
    (x : CFloat) :
    ((self.setThreshold x).getThreshold).1 = floatToDouble x ∧
    (x.isNaN = false →
      ((self.setThreshold x).getThreshold).1.isNaN = false ∧
      ((self.setThreshold x).getThreshold).1.toValue = x.toValue ∧
      ((self.setThreshold x).getThreshold).1.eq (floatToDouble x) = true) ∧
    (x.isNaN = true →
      ((self.setThreshold x).getThreshold).1.isNaN = true ∧
      ((self.setThreshold x).getThreshold).1.isSignaling = false ∧
      ((self.setThreshold x).getThreshold).1.sign = x.sign ∧
      ((self.setThreshold x).getThreshold).1.frac = 2 ^ 51 + x.frac % 2 ^ 22 * 2 ^ 29 ∧
      (x.isSignaling = false →
        ((self.setThreshold x).getThreshold).1.frac = x.frac * 2 ^ 29)) := by
  have hread : ((self.setThreshold x).getThreshold).1 = floatToDouble x := rfl
  rw [hread]
  refine ⟨rfl, ?_, ?_⟩
  · intro hn
    have hd : (floatToDouble x).isNaN = false := by rw [floatToDouble_isNaN, hn]
    exact ⟨hd, floatToDouble_toValue x, eq_self_of_not_nan _ hd⟩
  · intro hn
    have hfields : x.expo = 255 ∧ x.frac ≠ 0 := by
      unfold Binary.isNaN at hn
      simp only [Bool.and_eq_true, decide_eq_true_eq] at hn
      exact ⟨hn.1, hn.2⟩
    refine ⟨by rw [floatToDouble_isNaN, hn], floatToDouble_not_signaling x,
      floatToDouble_sign x, (floatToDouble_nan x hfields.1 hfields.2).2, ?_⟩
    intro hq
    apply floatToDouble_quiet_nan x hfields.1
    unfold Binary.isSignaling at hq
    rw [hn] at hq
    simp only [Bool.true_and, decide_eq_false_iff_not, Nat.not_lt] at hq
    exact hq

/-- Witness for C8 as amended: the `float` 0.5 is read back as a `double` denoting 1/2, and the
quiet NaN `0x7FC00000` as the quiet NaN with fraction `2 ^ 51`. -/
theorem getThreshold_setThreshold_witness :
    float_half.isNaN = false ∧
    ((calibratorWithTwoMaps.setThreshold float_half).getThreshold).1.toValue
      = float_half.toValue ∧
    float_quiet_nan.isNaN = true ∧ float_quiet_nan.isSignaling = false ∧
    ((calibratorWithTwoMaps.setThreshold float_quiet_nan).getThreshold).1.frac
      = float_quiet_nan.frac * 2 ^ 29 :=
  ⟨by decide,
   ((getThreshold_setThreshold calibratorWithTwoMaps float_half).2.1 (by decide)).2.1,
   by decide, by decide,
   ((getThreshold_setThreshold calibratorWithTwoMaps float_quiet_nan).2.2
      (by decide)).2.2.2.2 (by decide)⟩

/-- C8 fails as stated: the signalling NaN `0x7F800001` handed to `setThreshold` is read back as
the quiet NaN `0x7FF8000020000000`, so the datum read back is not the datum set (its fraction is
not the padded fraction of `x`, and it is no longer signalling), and the read-back value does
not compare equal to `x`. -/
theorem setThreshold_signaling_nan_quieted :
    float_signaling_nan.isSignaling = true ∧
    ((calibratorWithTwoMaps.setThreshold float_signaling_nan).getThreshold).1.isSignaling
      = false ∧
    ((calibratorWithTwoMaps.setThreshold float_signaling_nan).getThreshold).1.expo = 2047 ∧
    ((calibratorWithTwoMaps.setThreshold float_signaling_nan).getThreshold).1.frac
      = 2251800350556160 ∧
    ((calibratorWithTwoMaps.setThreshold float_signaling_nan).getThreshold).1.frac
      ≠ float_signaling_nan.frac * 2 ^ 29 ∧
    ((calibratorWithTwoMaps.setThreshold float_signaling_nan).getThreshold).1.eq
      (floatToDouble float_signaling_nan) = false := by
  refine ⟨by decide, by decide, by decide, by decide, by decide, by decide⟩

/-- C9, as amended: for every `std::size_t` value `maxIter` and every `double` threshold, the
calibrator built by the two-argument constructor stores `maxIter`, reports
`getThreshold() = threshold`, starts with empty radiance storage, and reports
`getMaxIteration() = maxIter` exactly when `maxIter < 2 ^ 31`. -/
theorem ctor_reports {Image : Type} (maxIter : Nat) (threshold : CDouble)
    (hmax : IsSizeT maxIter) :
    IsSizeT (RobertsonCalibrate.ctor maxIter threshold : RobertsonCalibrate Image)._maxIteration ∧
    (RobertsonCalibrate.ctor maxIter threshold : RobertsonCalibrate Image)._maxIteration
      = maxIter ∧
    ((RobertsonCalibrate.ctor maxIter threshold : RobertsonCalibrate Image).getThreshold).1
      = threshold ∧
    (RobertsonCalibrate.ctor maxIter threshold : RobertsonCalibrate Image)._radiance = [] ∧
    (((RobertsonCalibrate.ctor maxIter threshold : RobertsonCalibrate Image).getMaxIteration).1
      = (maxIter : Int) ↔ maxIter < 2 ^ 31) :=
  ⟨hmax, rfl, rfl, rfl, sizeTToInt_eq_self_iff maxIter⟩

/-- Witness for C9 as amended at `maxIter = 3`, threshold 1.0. -/
theorem ctor_reports_witness :
    IsSizeT 3 ∧
    ((RobertsonCalibrate.ctor 3 double_one : RobertsonCalibrate Nat).getThreshold).1
      = double_one ∧
    ((RobertsonCalibrate.ctor 3 double_one : RobertsonCalibrate Nat).getMaxIteration).1 = 3 :=
  ⟨by decide, (ctor_reports 3 double_one (by decide)).2.2.1,
   (ctor_reports 3 double_one (by decide)).2.2.2.2.2 (by decide)⟩

/-- C9 fails as stated: `2 ^ 31` is a `std::size_t` value, and the calibrator built with
`maxIter = 2 ^ 31` reports `getMaxIteration() = -2 ^ 31`, not `2 ^ 31`. -/
theorem ctor_getMaxIteration_wraps :
    IsSizeT (2 ^ 31) ∧
    ((RobertsonCalibrate.ctor (2 ^ 31) double_one : RobertsonCalibrate Nat).getMaxIteration).1
      = -(2 ^ 31) ∧
    ((RobertsonCalibrate.ctor (2 ^ 31) double_one : RobertsonCalibrate Nat).getMaxIteration).1
      ≠ ((2 ^ 31 : Nat) : Int) := by
  have hval : ((RobertsonCalibrate.ctor (2 ^ 31) double_one :
      RobertsonCalibrate Nat).getMaxIteration).1 = -(2 ^ 31) := by
    show sizeTToInt (2 ^ 31) = -(2 ^ 31)
    decide
  refine ⟨by decide, hval, ?_⟩
  rw [hval]
  decide

/-- C10: for every `int` value `v`, after `setMaxIteration(v)` the stored cap is `v mod 2 ^ 64`,
a `std::size_t` value (the setter accepts every `v`); the stored cap is 0 only when `v = 0`; and
for every negative `v` the stored cap is at least `2 ^ 64 - 2 ^ 31`. -/
theorem setMaxIteration_stored {Image : Type} (self : RobertsonCalibrate Image) (v : Int)
    (hv : IsInt v) :
    (((self.setMaxIteration v)._maxIteration : Nat) : Int) = v % 2 ^ 64 ∧
    IsSizeT (self.setMaxIteration v)._maxIteration ∧
    ((self.setMaxIteration v)._maxIteration = 0 ↔ v = 0) ∧
    (v < 0 → 2 ^ 64 - 2 ^ 31 ≤ (self.setMaxIteration v)._maxIteration) := by
  unfold IsInt INT_MIN INT_MAX at hv
  have hs : (self.setMaxIteration v)._maxIteration = intToSizeT v := rfl
  rw [hs]
  refine ⟨?_, intToSizeT_isSizeT v, ?_, ?_⟩
  · unfold intToSizeT
    omega
  · unfold intToSizeT
    omega
  · intro hneg
    unfold intToSizeT
    omega

/-- Witness for C10 at `v = -1`: the stored cap is `2 ^ 64 - 1`. -/
theorem setMaxIteration_stored_witness :
    IsInt (-1) ∧
    (((calibratorWithTwoMaps.setMaxIteration (-1))._maxIteration : Nat) : Int) = (-1) % 2 ^ 64 ∧
    2 ^ 64 - 2 ^ 31 ≤ (calibratorWithTwoMaps.setMaxIteration (-1))._maxIteration :=
  ⟨by decide, (setMaxIteration_stored calibratorWithTwoMaps (-1) (by decide)).1,
   (setMaxIteration_stored calibratorWithTwoMaps (-1) (by decide)).2.2.2 (by decide)⟩

end aliceVision.hdr
